import Mathlib

/-!
# Verification of the `raytracing-in-one-weekend` core (vec3.rs, ray.rs, chapter binaries)

Shallow embedding of the Rust sources. Every finite `f64` value is a rational
number, and every numeric literal appearing in this program is rational, so the
exact value semantics of the arithmetic core is embedded with `ℚ` components.
The square root (`length`, `normalized`, and the sky-gradient branch of
`ray_color`) is real-valued, so those operations live in a parallel `ℝ`-valued
layer (`Vec3R`). Rust panics are embedded as `Option` results; the Rust
saturating `as u8` cast is embedded as floor-then-clamp, which agrees with
truncate-then-clamp on the whole real line.
-/

/-- The `Vec3` struct of `src/vec3.rs`: three `f64` components, embedded as `ℚ`. -/
structure Vec3 where
  x : ℚ
  y : ℚ
  z : ℚ
deriving DecidableEq, Repr

namespace Vec3

/-- Component-wise vector addition, from `impl Add for Vec3` in `src/vec3.rs`. -/
def addVec (a b : Vec3) : Vec3 :=
  ⟨a.x + b.x, a.y + b.y, a.z + b.z⟩

/-- Broadcast scalar addition, from `impl Add<T> for Vec3` (`my_vec + 2.0`). -/
def addScalar (v : Vec3) (s : ℚ) : Vec3 :=
  ⟨v.x + s, v.y + s, v.z + s⟩

/-- Component-wise vector subtraction, from `impl Sub for Vec3`. -/
def subVec (a b : Vec3) : Vec3 :=
  ⟨a.x - b.x, a.y - b.y, a.z - b.z⟩

/-- Broadcast scalar subtraction, from `impl Sub<T> for Vec3` (`my_vec - 2.0`). -/
def subScalar (v : Vec3) (s : ℚ) : Vec3 :=
  ⟨v.x - s, v.y - s, v.z - s⟩

/-- Component-wise vector multiplication, from `impl Mul for Vec3`. -/
def mulVec (a b : Vec3) : Vec3 :=
  ⟨a.x * b.x, a.y * b.y, a.z * b.z⟩

/-- Broadcast scalar multiplication, from `impl Mul<T> for Vec3` (`my_vec * 2.0`). -/
def mulScalar (v : Vec3) (s : ℚ) : Vec3 :=
  ⟨v.x * s, v.y * s, v.z * s⟩

/-- Component-wise vector division, from `impl Div for Vec3`. -/
def divVec (a b : Vec3) : Vec3 :=
  ⟨a.x / b.x, a.y / b.y, a.z / b.z⟩

/-- Broadcast scalar division, from `impl Div<T> for Vec3` (`my_vec / 2.0`). -/
def divScalar (v : Vec3) (s : ℚ) : Vec3 :=
  ⟨v.x / s, v.y / s, v.z / s⟩

/-- Dot product, from `Vec3::dot` in `src/vec3.rs`. -/
def dot (a b : Vec3) : ℚ :=
  a.x * b.x + a.y * b.y + a.z * b.z

/-- Cross product, from `Vec3::cross` in `src/vec3.rs`. -/
def cross (a b : Vec3) : Vec3 :=
  ⟨a.y * b.z - a.z * b.y, a.z * b.x - a.x * b.z, a.x * b.y - a.y * b.x⟩

/-- Squared length, from `Vec3::length_squared` in `src/vec3.rs`. -/
def length_squared (v : Vec3) : ℚ :=
  v.x * v.x + v.y * v.y + v.z * v.z

/-- Indexed component access, from `impl Index<usize> for Vec3`: indices `0`,
`1`, `2` return `x`, `y`, `z`; any other index panics
(`panic!("Expect index between 0 and 2")`), embedded as `none`. -/
def index (v : Vec3) (i : ℕ) : Option ℚ :=
  match i with
  | 0 => some v.x
  | 1 => some v.y
  | 2 => some v.z
  | _ => none

end Vec3

/-- Scalar-first addition `3.0 + my_vector`, from `impl Add<Vec3> for f64` in
`src/vec3.rs`: the source delegates to the vector-first form (`other + self`). -/
def scalarAddVec (s : ℚ) (v : Vec3) : Vec3 :=
  v.addScalar s

/-- Scalar-first subtraction `3.0 - my_vector`, from `impl Sub<Vec3> for f64`:
the source delegates to the vector-first form (`other - self`). -/
def scalarSubVec (s : ℚ) (v : Vec3) : Vec3 :=
  v.subScalar s

/-- Scalar-first multiplication `3.0 * my_vector`, from `impl Mul<Vec3> for f64`:
the source delegates to the vector-first form (`other * self`). -/
def scalarMulVec (s : ℚ) (v : Vec3) : Vec3 :=
  v.mulScalar s

/-- The four scalar-broadcast arithmetic operators of `src/vec3.rs`. -/
inductive ScalarOp where
  | add
  | sub
  | mul
  | div
deriving DecidableEq, Repr

/-- Which vector-first operator impls (`impl Op<T> for Vec3`) exist in
`src/vec3.rs`: all four (`Add<T>`, `Sub<T>`, `Mul<T>`, `Div<T>`). -/
def vecFirstImplemented : ScalarOp → Bool
  | .add => true
  | .sub => true
  | .mul => true
  | .div => true

/-- Which scalar-first operator impls (`impl Op<Vec3> for f64`) exist in
`src/vec3.rs`: `Add<Vec3> for f64`, `Sub<Vec3> for f64` and `Mul<Vec3> for f64`
are present; there is no `Div<Vec3> for f64` impl (the source comment above
`impl Mul<Vec3> for f64` states division `3 / my_vector` was deliberately not
implemented). -/
def scalarFirstImplemented : ScalarOp → Bool
  | .add => true
  | .sub => true
  | .mul => true
  | .div => false

/-- The `Ray` struct of `src/ray.rs`: an origin and a direction. -/
structure Ray where
  origin : Vec3
  direction : Vec3
deriving DecidableEq, Repr

namespace Ray

/-- Parametric point evaluation, from `Ray::at` in `src/ray.rs`:
`self.origin + (self.direction * t)`. -/
def «at» (r : Ray) (t : ℚ) : Vec3 :=
  r.origin.addVec (r.direction.mulScalar t)

end Ray

/-- The boolean ray/sphere intersection test, from `hit_sphere` in
`src/bin/chapter_five.rs`: forms the quadratic coefficients and returns
whether the discriminant is strictly positive. -/
def hit_sphere (center : Vec3) (radius : ℚ) (ray : Ray) : Bool :=
  let oc : Vec3 := ray.origin.subVec center
  let a := ray.direction.length_squared
  let b := 2 * oc.dot ray.direction
  let c := oc.length_squared - radius * radius
  let discriminant := b * b - 4 * a * c
  decide (discriminant > 0)

/-- Discriminant of the ray/sphere quadratic as the spec words it:
`b² - 4ac` with `a = ray.direction.length_squared()`,
`b = 2 * dot(ray.origin - c, ray.direction)`,
`c = (ray.origin - c).length_squared() - r²`. Written from the spec for
comparison with the `hit_sphere` embedding above. -/
def specDiscriminant (center : Vec3) (radius : ℚ) (ray : Ray) : ℚ :=
  let a := ray.direction.length_squared
  let b := 2 * (ray.origin.subVec center).dot ray.direction
  let c := (ray.origin.subVec center).length_squared - radius ^ 2
  b ^ 2 - 4 * a * c

/-- Helper: `hit_sphere` returns `true` exactly when the spec-worded
discriminant is strictly positive. -/
theorem hit_sphere_eq_true_iff (center : Vec3) (radius : ℚ) (ray : Ray) :
    hit_sphere center radius ray = true ↔ 0 < specDiscriminant center radius ray := by
  simp only [hit_sphere, specDiscriminant, gt_iff_lt, decide_eq_true_eq]
  constructor <;> intro h <;> nlinarith [h]

/-- C1: `hit_sphere` returns true iff the discriminant `b² - 4ac` is strictly
positive; a tangent ray with discriminant exactly zero is classified as no hit;
for center `(0,0,-1)`, radius `0.5`, the ray from the origin with direction
`(0,0,-1)` hits while the ray with direction `(1,0,0)` does not. -/
theorem hit_sphere_discriminant_spec :
    (∀ (center : Vec3) (radius : ℚ) (ray : Ray),
        hit_sphere center radius ray = true ↔ 0 < specDiscriminant center radius ray) ∧
    (∀ (center : Vec3) (radius : ℚ) (ray : Ray),
        specDiscriminant center radius ray = 0 → hit_sphere center radius ray = false) ∧
    hit_sphere ⟨0, 0, -1⟩ 0.5 ⟨⟨0, 0, 0⟩, ⟨0, 0, -1⟩⟩ = true ∧
    hit_sphere ⟨0, 0, -1⟩ 0.5 ⟨⟨0, 0, 0⟩, ⟨1, 0, 0⟩⟩ = false := by
  refine ⟨hit_sphere_eq_true_iff, fun center radius ray h => ?_, ?_, ?_⟩
  · rw [Bool.eq_false_iff]
    intro htrue
    exact absurd ((hit_sphere_eq_true_iff center radius ray).mp htrue)
      (by rw [h]; exact lt_irrefl 0)
  · rw [hit_sphere_eq_true_iff]
    norm_num [specDiscriminant, Vec3.subVec, Vec3.dot, Vec3.length_squared]
  · simp only [hit_sphere, gt_iff_lt, decide_eq_false_iff_not, not_lt]
    norm_num [Vec3.subVec, Vec3.dot, Vec3.length_squared]

/-- Witness for C1: the tangent ray along `(0,0,-1)` from `(0, 0.5, 0)` has
discriminant exactly zero against the sphere of center `(0,0,-1)` and radius
`0.5`, and `hit_sphere` classifies it as no hit. -/
theorem hit_sphere_discriminant_spec_witness :
    specDiscriminant ⟨0, 0, -1⟩ 0.5 ⟨⟨0, 0.5, 0⟩, ⟨0, 0, -1⟩⟩ = 0 ∧
    hit_sphere ⟨0, 0, -1⟩ 0.5 ⟨⟨0, 0.5, 0⟩, ⟨0, 0, -1⟩⟩ = false :=
  ⟨by norm_num [specDiscriminant, Vec3.subVec, Vec3.dot, Vec3.length_squared],
   hit_sphere_discriminant_spec.2.1 ⟨0, 0, -1⟩ 0.5 ⟨⟨0, 0.5, 0⟩, ⟨0, 0, -1⟩⟩
     (by norm_num [specDiscriminant, Vec3.subVec, Vec3.dot, Vec3.length_squared])⟩

/-- C3 counterexample: the scalar-first ordering is not supported for
division — `src/vec3.rs` has no `impl Div<Vec3> for f64`, as its own comment
says, so the claim that both orderings are supported for all four operators
fails at the division operator. -/
theorem scalar_first_div_not_implemented :
    scalarFirstImplemented ScalarOp.div = false :=
  rfl

/-- C3 (amended): both orderings are supported for addition, subtraction and
multiplication (but not for division, which is vector-first only), and the two
orderings agree for addition and multiplication: `s + v == v + s` and
`s * v == v * s`. -/
theorem scalar_orderings_amended :
    (∀ op, vecFirstImplemented op = true) ∧
    scalarFirstImplemented ScalarOp.add = true ∧
    scalarFirstImplemented ScalarOp.sub = true ∧
    scalarFirstImplemented ScalarOp.mul = true ∧
    scalarFirstImplemented ScalarOp.div = false ∧
    (∀ (s : ℚ) (v : Vec3), scalarAddVec s v = v.addScalar s) ∧
    (∀ (s : ℚ) (v : Vec3), scalarMulVec s v = v.mulScalar s) :=
  ⟨fun op => by cases op <;> rfl, rfl, rfl, rfl, rfl, fun _ _ => rfl, fun _ _ => rfl⟩

/-- C4: scalar-first subtraction `s - v` delegates to vector-first `v - s`,
giving `(v.x - s, v.y - s, v.z - s)` component-wise, which differs from the
mathematical `s - v` (witnessed at `s = 3`, `v = (0,0,0)`). -/
theorem scalar_first_sub_convention (s : ℚ) (v : Vec3) :
    scalarSubVec s v = v.subScalar s ∧
    scalarSubVec s v = ⟨v.x - s, v.y - s, v.z - s⟩ ∧
    scalarSubVec 3 ⟨0, 0, 0⟩ ≠ ⟨3 - 0, 3 - 0, 3 - 0⟩ :=
  ⟨rfl, rfl, by simp only [scalarSubVec, Vec3.subScalar, ne_eq, Vec3.mk.injEq]; norm_num⟩

/-- C5: for every vector `v` (no restriction on the rational component
values), `v + 0 == v` (both the scalar and the vector form of the zero),
`v * 1 == v`, and `v - v == (0,0,0)`. -/
theorem vec_identities (v : Vec3) :
    v.addScalar 0 = v ∧
    v.addVec ⟨0, 0, 0⟩ = v ∧
    v.mulScalar 1 = v ∧
    v.subVec v = ⟨0, 0, 0⟩ := by
  obtain ⟨x, y, z⟩ := v
  refine ⟨?_, ?_, ?_, ?_⟩ <;>
    simp [Vec3.addScalar, Vec3.addVec, Vec3.mulScalar, Vec3.subVec]

/-- C6: `Ray::at(t)` returns `origin + direction * t` (a pure function of the
ray and `t`), and the ray with origin `(2,3,4)` and direction `(0,1,0)`
evaluated at `t = 0.5` yields `(2, 3.5, 4)`. -/
theorem ray_at_spec (r : Ray) (t : ℚ) :
    r.«at» t = r.origin.addVec (r.direction.mulScalar t) ∧
    Ray.«at» ⟨⟨2, 3, 4⟩, ⟨0, 1, 0⟩⟩ 0.5 = ⟨2, 3.5, 4⟩ :=
  ⟨rfl, by simp only [Ray.«at», Vec3.addVec, Vec3.mulScalar, Vec3.mk.injEq]; norm_num⟩

/-- C7: indexing a vector with `0`, `1`, `2` returns `x`, `y`, `z`
respectively, and indexing with any index `≥ 3` fails (the Rust source
panics, embedded as `none`) — it never returns a sentinel or default value. -/
theorem vec_index_spec (v : Vec3) :
    v.index 0 = some v.x ∧
    v.index 1 = some v.y ∧
    v.index 2 = some v.z ∧
    ∀ i : ℕ, 3 ≤ i → v.index i = none := by
  refine ⟨rfl, rfl, rfl, fun i hi => ?_⟩
  match i, hi with
  | n + 3, _ => rfl

/-- Witness for C7: indexing the vector `(0, 2, 3)` with the invalid index `3`
yields `none`. -/
theorem vec_index_spec_witness :
    Vec3.index ⟨0, 2, 3⟩ 3 = none :=
  (vec_index_spec ⟨0, 2, 3⟩).2.2.2 3 (by decide)

/-- Real-valued vectors: the codomain of the square-root-involving operations
(`length`, `normalized`) and of `ray_color`, whose sky branch divides by a
square root. Components of `Vec3` values are exact; these are their images in
`ℝ`. -/
structure Vec3R where
  x : ℝ
  y : ℝ
  z : ℝ

namespace Vec3R

/-- Component-wise vector addition on the real layer, the image of
`impl Add for Vec3`. -/
noncomputable def addVec (a b : Vec3R) : Vec3R :=
  ⟨a.x + b.x, a.y + b.y, a.z + b.z⟩

/-- Broadcast scalar multiplication on the real layer, the image of
`impl Mul<T> for Vec3`. -/
noncomputable def mulScalar (v : Vec3R) (s : ℝ) : Vec3R :=
  ⟨v.x * s, v.y * s, v.z * s⟩

/-- Broadcast scalar division on the real layer, the image of
`impl Div<T> for Vec3`. -/
noncomputable def divScalar (v : Vec3R) (s : ℝ) : Vec3R :=
  ⟨v.x / s, v.y / s, v.z / s⟩

end Vec3R

/-- Scalar-first multiplication `3.0 * my_vector` on the real layer, from
`impl Mul<Vec3> for f64`: the source delegates to the vector-first form. -/
noncomputable def scalarMulVecR (s : ℝ) (v : Vec3R) : Vec3R :=
  v.mulScalar s

namespace Vec3

/-- The inclusion of exact vectors into the real layer. -/
noncomputable def toR (v : Vec3) : Vec3R :=
  ⟨(v.x : ℝ), (v.y : ℝ), (v.z : ℝ)⟩

/-- Euclidean length, from `Vec3::length` in `src/vec3.rs`:
`length_squared().sqrt()`. -/
noncomputable def length (v : Vec3) : ℝ :=
  Real.sqrt ((v.length_squared : ℚ) : ℝ)

/-- Unit-direction computation, from `Vec3::normalized` in `src/vec3.rs`:
`self.div(length)`, i.e. every component divided by the length. -/
noncomputable def normalized (v : Vec3) : Vec3R :=
  v.toR.divScalar v.length

end Vec3

/-- Per-ray color resolution, from `ray_color` in `src/bin/chapter_five.rs`:
red `(1,0,0)` when the ray hits the sphere of center `(0,0,-1)` and radius
`0.5`, else the white-to-blue vertical gradient driven by the y-component of
the normalized direction. The scalar-times-color products go through
`impl Mul<Vec3> for f64` as in the source. -/
noncomputable def ray_color (ray : Ray) : Vec3R :=
  if hit_sphere ⟨0, 0, -1⟩ 0.5 ray then ⟨1, 0, 0⟩
  else
    let unit_direction := ray.direction.normalized
    let t : ℝ := 0.5 * (unit_direction.y + 1)
    (scalarMulVecR (1 - t) ⟨1, 1, 1⟩).addVec (scalarMulVecR t ⟨0.5, 0.7, 1⟩)

/-- Gradient parameter as the spec words it: `t = 0.5 * (y + 1)` where `y` is
the y-component of the ray's normalized direction, i.e. `direction.y` divided
by the square root of the direction's squared length. Written from the spec
for comparison with `ray_color`. -/
noncomputable def rayColorT (ray : Ray) : ℝ :=
  0.5 * ((ray.direction.y : ℝ) / Real.sqrt ((ray.direction.length_squared : ℚ) : ℝ) + 1)

/-- C2: `ray_color` returns opaque red `(1,0,0)` on a sphere hit, and
otherwise the linear interpolation `(1-t)*(1,1,1) + t*(0.5,0.7,1.0)` with
`t = 0.5 * (y + 1)`, `y` the y-component of the normalized ray direction
(`direction.y` divided by the ray direction's length). -/
theorem ray_color_spec (ray : Ray) :
    ray_color ray =
      if hit_sphere ⟨0, 0, -1⟩ 0.5 ray then ⟨1, 0, 0⟩
      else
        ⟨(1 - rayColorT ray) * 1 + rayColorT ray * 0.5,
         (1 - rayColorT ray) * 1 + rayColorT ray * 0.7,
         (1 - rayColorT ray) * 1 + rayColorT ray * 1⟩ := by
  by_cases h : hit_sphere ⟨0, 0, -1⟩ 0.5 ray
  · simp [ray_color, h]
  · simp only [ray_color, h, Bool.false_eq_true, if_false, rayColorT,
      Vec3.normalized, Vec3.toR, Vec3.length, Vec3R.divScalar, Vec3R.addVec,
      scalarMulVecR, Vec3R.mulScalar, Vec3R.mk.injEq]
    refine ⟨by ring, by ring, by ring⟩

/-- Rust saturating numeric cast `x as u8` applied to an `f64` value:
truncate toward zero, then clamp into `[0, 255]` (`NaN` maps to `0`). On the
clamped range, truncation agrees with the floor, so the embedding is
floor-then-clamp. -/
def f64AsU8 (x : ℚ) : ℕ :=
  (min 255 (max 0 ⌊x⌋)).toNat

/-- Rust saturating numeric cast `x as i32` applied to an `f64` value:
truncate toward zero (floor for nonnegative, ceiling for negative), then
clamp into the `i32` range. -/
def f64AsI32 (x : ℚ) : ℤ :=
  max (-(2 ^ 31)) (min (2 ^ 31 - 1) (if 0 ≤ x then ⌊x⌋ else ⌈x⌉))

/-- One pixel of the 256×256 gradient, from the loop body of `main` in
`src/bin/chapter_two.rs` at loop indices `row` and `column`
(`width = height = 256`): channels `r = column / (width - 1)`,
`g = row / (height - 1)`, `b = 0.25`, each emitted as `(channel * 255.99) as u8`.
The `write_color` helper of `src/bin/chapter_three.rs` performs the same
conversion on a `Color` built from the same three channels. -/
def chapterTwoPixel (row column : ℕ) : ℕ × ℕ × ℕ :=
  let r : ℚ := (column : ℚ) / (256 - 1)
  let g : ℚ := (row : ℚ) / (256 - 1)
  let b : ℚ := 0.25
  (f64AsU8 (r * 255.99), f64AsU8 (g * 255.99), f64AsU8 (b * 255.99))

/-- The pixel written at output coordinates `(column, outputRow)` of the
256×256 gradient image: the row loop `for row in (0..height).rev()` runs
reversed, so the line at output row `p` (counting emitted rows from the top,
starting at 0) comes from loop row `255 - p`. -/
def chapterTwoEmitted (column outputRow : ℕ) : ℕ × ℕ × ℕ :=
  chapterTwoPixel (255 - outputRow) column

/-- Helper: the saturating `u8` cast sends a rational with floor `n ≤ 255`,
`n ≥ 0`, to `n` itself. -/
theorem f64AsU8_of_floor (x : ℚ) (n : ℕ) (hn : n ≤ 255) (hfl : ⌊x⌋ = (n : ℤ)) :
    f64AsU8 x = n := by
  have h1 : (0 : ℤ) ≤ (n : ℤ) := Int.ofNat_nonneg n
  have h2 : (n : ℤ) ≤ 255 := by exact_mod_cast hn
  simp only [f64AsU8, hfl, max_eq_right h1, min_eq_right h2, Int.toNat_natCast]

/-- C8: in the 256×256 gradient emission, each channel in `[0,1]` is written
as `(channel * 255.99) as u8` (truncation); under the row-reversed iteration
the pixel at column 0 of the bottom output row 255 is `(0, 0, 63)` and the
pixel at column 255 of the top output row 0 is `(255, 255, 63)`. -/
theorem chapter_two_gradient_pixels :
    (∀ row column : ℕ,
        chapterTwoPixel row column =
          (f64AsU8 ((column : ℚ) / (256 - 1) * 255.99),
           f64AsU8 ((row : ℚ) / (256 - 1) * 255.99),
           f64AsU8 ((0.25 : ℚ) * 255.99))) ∧
    chapterTwoEmitted 0 255 = (0, 0, 63) ∧
    chapterTwoEmitted 255 0 = (255, 255, 63) := by
  have hb : f64AsU8 ((25599 : ℚ) / 400) = 63 :=
    f64AsU8_of_floor _ 63 (by norm_num) (by norm_num)
  have h0 : f64AsU8 (0 : ℚ) = 0 :=
    f64AsU8_of_floor _ 0 (by norm_num) (by norm_num)
  have h255 : f64AsU8 ((25599 : ℚ) / 100) = 255 :=
    f64AsU8_of_floor _ 255 (by norm_num) (by norm_num)
  refine ⟨fun row column => rfl, ?_, ?_⟩
  · show chapterTwoPixel 0 0 = (0, 0, 63)
    simp only [chapterTwoPixel]
    norm_num [hb, h0]
  · show chapterTwoPixel 255 255 = (255, 255, 63)
    simp only [chapterTwoPixel]
    norm_num [hb, h255]

/-- Camera constant of `main` in `src/bin/chapter_five.rs`. -/
def cfAspectRatio : ℚ := 16 / 9

/-- Image width constant of `main` in `src/bin/chapter_five.rs`. -/
def cfImageWidth : ℕ := 400

/-- Image height of `main` in `src/bin/chapter_five.rs`:
`(width as f64 / aspect_ratio) as i32`. -/
def cfImageHeight : ℤ := f64AsI32 ((cfImageWidth : ℚ) / cfAspectRatio)

/-- Viewport height constant of `main` in `src/bin/chapter_five.rs`. -/
def cfViewportHeight : ℚ := 2

/-- Viewport width of `main` in `src/bin/chapter_five.rs`:
`aspect_ratio * viewport_height`. -/
def cfViewportWidth : ℚ := cfAspectRatio * cfViewportHeight

/-- Focal length constant of `main` in `src/bin/chapter_five.rs`. -/
def cfFocalLength : ℚ := 1

/-- Camera origin of `main` in `src/bin/chapter_five.rs`. -/
def cfOrigin : Vec3 := ⟨0, 0, 0⟩

/-- Horizontal viewport vector of `main` in `src/bin/chapter_five.rs`. -/
def cfHorizontal : Vec3 := ⟨cfViewportWidth, 0, 0⟩

/-- Vertical viewport vector of `main` in `src/bin/chapter_five.rs`. -/
def cfVertical : Vec3 := ⟨0, cfViewportHeight, 0⟩

/-- Lower-left viewport corner of `main` in `src/bin/chapter_five.rs`:
`origin - horizontal / 2 - vertical / 2 - Vec3::new(0, 0, focal_length)`. -/
def cfLowerLeftCorner : Vec3 :=
  ((cfOrigin.subVec (cfHorizontal.divScalar 2)).subVec
      (cfVertical.divScalar 2)).subVec ⟨0, 0, cfFocalLength⟩

/-- The ray constructed for the pixel at loop indices `(row, column)` of the
render loop of `main` in `src/bin/chapter_five.rs`:
`Ray::new(origin, lower_left_corner + u * horizontal + v * vertical - origin)`
with `u = column / (width - 1)` and `v = row / (height - 1)`. -/
def cfRayForPixel (row column : ℕ) : Ray :=
  let u : ℚ := (column : ℚ) / ((cfImageWidth : ℚ) - 1)
  let v : ℚ := (row : ℚ) / (((cfImageHeight : ℤ) : ℚ) - 1)
  ⟨cfOrigin,
   ((cfLowerLeftCorner.addVec (scalarMulVec u cfHorizontal)).addVec
       (scalarMulVec v cfVertical)).subVec cfOrigin⟩

/-- C10: for every pixel of the chapter-five render loop, the direction of the
ray handed to `ray_color` has z-component exactly `-1` (the negated focal
length), hence nonzero squared length, so the normalization inside
`ray_color` never divides by a zero length. -/
theorem chapter_five_direction_invariant (row column : ℕ)
    (hrow : (row : ℤ) < cfImageHeight) (hcol : column < cfImageWidth) :
    (cfRayForPixel row column).direction.z = -1 ∧
    0 < (cfRayForPixel row column).direction.length_squared ∧
    (cfRayForPixel row column).direction.length ≠ 0 := by
  have hz : (cfRayForPixel row column).direction.z = -1 := by
    simp [cfRayForPixel, cfLowerLeftCorner, cfOrigin, cfHorizontal, cfVertical,
      scalarMulVec, Vec3.mulScalar, Vec3.addVec, Vec3.subVec, Vec3.divScalar,
      cfViewportWidth, cfViewportHeight, cfAspectRatio, cfFocalLength]
  have hpos : 0 < (cfRayForPixel row column).direction.length_squared := by
    have hx := mul_self_nonneg (cfRayForPixel row column).direction.x
    have hy := mul_self_nonneg (cfRayForPixel row column).direction.y
    unfold Vec3.length_squared
    rw [hz]
    nlinarith
  refine ⟨hz, hpos, ?_⟩
  unfold Vec3.length
  rw [Real.sqrt_ne_zero']
  exact_mod_cast hpos

/-- Witness for C10: at the pixel with loop indices `(0, 0)` the ray direction
has z-component `-1`, positive squared length, and nonzero length. -/
theorem chapter_five_direction_invariant_witness :
    (cfRayForPixel 0 0).direction.z = -1 ∧
    0 < (cfRayForPixel 0 0).direction.length_squared ∧
    (cfRayForPixel 0 0).direction.length ≠ 0 :=
  chapter_five_direction_invariant 0 0
    (by norm_num [cfImageHeight, f64AsI32, cfImageWidth, cfAspectRatio])
    (by norm_num [cfImageWidth])
